import Mathlib

/-!
Verification of `lib/fortune.js` (the fortune resource-API layer).

The development shallowly embeds the JavaScript source into Lean:

* JavaScript values that matter to the code under scrutiny are modelled by
  the inductive type `JVal` (strings, numbers, booleans, `null`, `undefined`,
  functions, and plain objects as association lists of own properties).
* A plain object is an association list `List (String × α)`; `olookup`,
  `hasOwn`, `setKey` and `delKey` model property read, `hasOwnProperty`,
  property assignment and `delete`.
* Fallible JavaScript evaluation (thrown errors, rejected promises whose
  rejection handler rethrows) is modelled with `Except String`.
* Side effects on a Fortune instance (the `_resource`, `_schema`, adapter
  models, express routes and console output) are modelled by explicit state
  records which each operation transforms.

Each definition is translated from the corresponding function of
`lib/fortune.js`; the line numbers in the doc comments refer to that file.
-/

namespace Fortune

/-- The JavaScript values relevant to `lib/fortune.js`: primitive strings,
numbers and booleans, `null`, `undefined`, functions (whose identity is
irrelevant here), and plain objects given by their own enumerable
properties in insertion order. -/
inductive JVal : Type where
  | str (s : String)
  | num (n : Int)
  | bool (b : Bool)
  | null
  | undef
  | fn
  | obj (fields : List (String × JVal))

/-- Property lookup on a plain object (first binding wins; JavaScript objects
have unique keys, so well-formed objects have at most one binding per key). -/
def olookup {α : Type} : List (String × α) → String → Option α
  | [], _ => none
  | (k', v') :: t, k => if k' == k then some v' else olookup t k

/-- `Object.prototype.hasOwnProperty`: the object has an own binding for the
key (a binding whose value is `undefined` still counts). -/
def hasOwn {α : Type} (o : List (String × α)) (k : String) : Bool :=
  (olookup o k).isSome

/-- Property assignment `o[k] = v`: replaces the value of an existing binding
in place, otherwise appends a new binding (JavaScript insertion order). -/
def setKey {α : Type} : List (String × α) → String → α → List (String × α)
  | [], k, v => [(k, v)]
  | (k', v') :: t, k, v =>
      if k' == k then (k, v) :: t else (k', v') :: setKey t k v

/-- `delete o[k]`: removes the binding for `k`. -/
def delKey {α : Type} (o : List (String × α)) (k : String) : List (String × α) :=
  o.filter (fun p => !(p.1 == k))

/-- The JavaScript `typeof` operator on a `JVal`; note `typeof null` is
`"object"`. -/
def jsTypeof : JVal → String
  | .str _ => "string"
  | .num _ => "number"
  | .bool _ => "boolean"
  | .null => "object"
  | .undef => "undefined"
  | .fn => "function"
  | .obj _ => "object"

/-- JavaScript truthiness of a `JVal`. -/
def truthy : JVal → Bool
  | .str s => !(s == "")
  | .num n => !(n == 0)
  | .bool b => b
  | .null => false
  | .undef => false
  | .fn => true
  | .obj _ => true

/-- Whether a `JVal` is an actual object (`null` is a primitive, even though
`typeof null == "object"`). -/
def isObjV : JVal → Bool
  | .obj _ => true
  | _ => false

/-- `Fortune.prototype._defaults` (fortune.js:42-59): the default application
settings, in declaration order. -/
def defaults : List (String × JVal) :=
  [ ("adapter", JVal.str "nedb")
  , ("host", JVal.str "localhost")
  , ("port", JVal.null)
  , ("db", JVal.str "fortune")
  , ("username", JVal.str "")
  , ("password", JVal.str "")
  , ("flags", JVal.obj [])
  , ("baseUrl", JVal.str "")
  , ("namespace", JVal.str "")
  , ("cors", JVal.bool true)
  , ("production", JVal.bool false) ]

/-- The option-merging loop of `Fortune.prototype._init` (fortune.js:72-75):
`for(var key in this._defaults) if(!options.hasOwnProperty(key))
options[key] = this._defaults[key];` starting from the user's object. -/
def mergeDefaults (o : List (String × JVal)) : List (String × JVal) :=
  defaults.foldl (fun acc kv => if hasOwn acc kv.1 then acc else setKey acc kv.1 kv.2) o

/-- The option-initialization step of `Fortune.prototype._init`
(fortune.js:71-76): `options = typeof options == 'object' ? options : {}`
followed by the merging loop. Because `typeof null == "object"`, a `null`
argument is kept as-is and the first `options.hasOwnProperty(key)` call
throws a `TypeError`, modelled as `Except.error`. -/
def initOptions (arg : JVal) : Except String (List (String × JVal)) :=
  match arg with
  | JVal.obj o => Except.ok (mergeDefaults o)
  | JVal.null => Except.error "TypeError"
  | _ => Except.ok (mergeDefaults [])

/-- The CORS-installation condition of `Fortune.prototype._init`
(fortune.js:83-85): `allowCrossDomain(options.cors)` is mounted on the router
exactly when `typeof options.cors == 'boolean' || typeof options.cors ==
'object' && options.cors` evaluates truthily (`&&` binds tighter than `||`). -/
def corsInstalled (cors : JVal) : Bool :=
  (jsTypeof cors == "boolean") || ((jsTypeof cors == "object") && truthy cors)

lemma olookup_setKey_self {α : Type} (o : List (String × α)) (k : String) (v : α) :
    olookup (setKey o k v) k = some v := by
  induction o with
  | nil => simp [setKey, olookup]
  | cons p t ih =>
      by_cases h : p.1 == k
      · simp [setKey, h, olookup]
      · simpa [setKey, h, olookup] using ih

lemma olookup_setKey_ne {α : Type} (o : List (String × α)) (k k' : String) (v : α)
    (h : k' ≠ k) : olookup (setKey o k v) k' = olookup o k' := by
  have hkk : ¬ (k == k') := by
    simp only [beq_iff_eq]
    exact fun hh => h hh.symm
  induction o with
  | nil => simp [setKey, olookup, hkk]
  | cons p t ih =>
      by_cases hp : p.1 == k
      · have hpk : p.1 = k := by simpa using hp
        have hpk' : ¬ (p.1 == k') := by simpa [hpk] using hkk
        simp [setKey, hp, olookup, hpk', hkk]
      · by_cases hq : p.1 == k'
        · simp [setKey, hp, olookup, hq]
        · simp [setKey, hp, olookup, hq, ih]

/-- Single step of the defaults-merging loop. -/
def mergeStep (acc : List (String × JVal)) (kv : String × JVal) : List (String × JVal) :=
  if hasOwn acc kv.1 then acc else setKey acc kv.1 kv.2

lemma mergeDefaults_eq_foldl (o : List (String × JVal)) :
    mergeDefaults o = defaults.foldl mergeStep o := rfl

lemma foldl_mergeStep_haskey (ds : List (String × JVal)) (k : String) :
    ∀ acc : List (String × JVal), hasOwn acc k = true →
      olookup (ds.foldl mergeStep acc) k = olookup acc k := by
  induction ds with
  | nil => intro acc _; rfl
  | cons kv rest ih =>
      intro acc hacc
      by_cases h : hasOwn acc kv.1
      · simpa [List.foldl_cons, mergeStep, h] using ih acc hacc
      · have hne : kv.1 ≠ k := fun he => by rw [he] at h; exact h hacc
        have hl : olookup (setKey acc kv.1 kv.2) k = olookup acc k :=
          olookup_setKey_ne acc kv.1 k kv.2 (fun he => hne he.symm)
        have hacc' : hasOwn (setKey acc kv.1 kv.2) k = true := by
          simpa [hasOwn, hl] using hacc
        simpa [List.foldl_cons, mergeStep, h, hl] using ih _ hacc'

lemma foldl_mergeStep_nokeys (ds : List (String × JVal)) (k : String)
    (h : ∀ kv ∈ ds, kv.1 ≠ k) :
    ∀ acc : List (String × JVal),
      olookup (ds.foldl mergeStep acc) k = olookup acc k := by
  induction ds with
  | nil => intro acc; rfl
  | cons kv rest ih =>
      intro acc
      have hk : kv.1 ≠ k := h kv (List.mem_cons_self kv rest)
      have hrest : ∀ p ∈ rest, p.1 ≠ k := fun p hp => h p (List.mem_cons_of_mem kv hp)
      by_cases hc : hasOwn acc kv.1
      · rw [List.foldl_cons, show mergeStep acc kv = acc from by simp [mergeStep, hc]]
        exact ih hrest acc
      · have hl : olookup (setKey acc kv.1 kv.2) k = olookup acc k :=
          olookup_setKey_ne acc kv.1 k kv.2 (fun he => hk he.symm)
        rw [List.foldl_cons,
          show mergeStep acc kv = setKey acc kv.1 kv.2 from by simp [mergeStep, hc]]
        rw [ih hrest (setKey acc kv.1 kv.2), hl]

lemma foldl_mergeStep_found (ds : List (String × JVal)) (k : String) (v : JVal)
    (hnd : (ds.map Prod.fst).Nodup) (hm : (k, v) ∈ ds)
    (acc : List (String × JVal)) :
    olookup (ds.foldl mergeStep acc) k =
      if hasOwn acc k then olookup acc k else some v := by
  obtain ⟨pre, post, rfl⟩ := List.append_of_mem hm
  have hnd' := hnd
  rw [List.map_append, List.map_cons] at hnd'
  have hpre : ∀ p ∈ pre, p.1 ≠ k := by
    intro p hp he
    have hmem : p.1 ∈ pre.map Prod.fst := List.mem_map_of_mem Prod.fst hp
    rw [he] at hmem
    rcases List.nodup_append.mp hnd' with ⟨_, _, hdisj⟩
    exact hdisj hmem (List.mem_cons_self _ _)
  have hpost : ∀ p ∈ post, p.1 ≠ k := by
    intro p hp he
    rcases List.nodup_append.mp hnd' with ⟨_, hnc, _⟩
    have hmem : p.1 ∈ post.map Prod.fst := List.mem_map_of_mem Prod.fst hp
    rw [he] at hmem
    exact (List.nodup_cons.mp hnc).1 hmem
  rw [List.foldl_append]
  have hmid : olookup (pre.foldl mergeStep acc) k = olookup acc k :=
    foldl_mergeStep_nokeys pre k hpre acc
  set acc₁ := pre.foldl mergeStep acc with hacc₁
  by_cases hc : hasOwn acc k
  · have hc₁ : hasOwn acc₁ k = true := by simpa [hasOwn, hmid] using hc
    rw [List.foldl_cons]
    have : mergeStep acc₁ (k, v) = acc₁ := by simp [mergeStep, hc₁]
    rw [this, foldl_mergeStep_haskey post k acc₁ hc₁, hmid, if_pos hc]
  · have hc₁ : hasOwn acc₁ k = false := by simpa [hasOwn, hmid] using hc
    rw [List.foldl_cons]
    have hstep : mergeStep acc₁ (k, v) = setKey acc₁ k v := by simp [mergeStep, hc₁]
    have hset : olookup (setKey acc₁ k v) k = some v := olookup_setKey_self acc₁ k v
    have hhas : hasOwn (setKey acc₁ k v) k = true := by simp [hasOwn, hset]
    rw [hstep, foldl_mergeStep_haskey post k _ hhas, hset, if_neg hc]

/-- Claim C1 (amended): for every options object, each default key
(`adapter`, `host`, `port`, `db`, `username`, `password`, `flags`, `baseUrl`,
`namespace`, `cors`, `production`) of the merged options is the user-supplied
value when the user's object has that key as an own property, and the default
value otherwise; keys outside the defaults are preserved unchanged; when the
argument is neither an object nor `null`, every option equals its default;
but passing `null` throws a `TypeError` (because `typeof null == "object"`,
`null` survives the ternary and `null.hasOwnProperty` throws) instead of
producing the defaults. -/
theorem fortune_C1_amended :
    (∀ (o : List (String × JVal)) (k : String) (v : JVal), (k, v) ∈ defaults →
      olookup (mergeDefaults o) k = if hasOwn o k then olookup o k else some v)
    ∧ (∀ (o : List (String × JVal)) (k : String), k ∉ defaults.map Prod.fst →
      olookup (mergeDefaults o) k = olookup o k)
    ∧ (∀ a : JVal, isObjV a = false → a ≠ JVal.null →
      initOptions a = Except.ok (mergeDefaults []))
    ∧ (∀ (k : String) (v : JVal), (k, v) ∈ defaults →
      olookup (mergeDefaults []) k = some v)
    ∧ initOptions JVal.null = Except.error "TypeError" := by
  have hnd : (defaults.map Prod.fst).Nodup := by
    simp [defaults]
  refine ⟨?_, ?_, ?_, ?_, rfl⟩
  · intro o k v hm
    rw [mergeDefaults_eq_foldl]
    exact foldl_mergeStep_found defaults k v hnd hm o
  · intro o k hk
    rw [mergeDefaults_eq_foldl]
    refine foldl_mergeStep_nokeys defaults k ?_ o
    intro kv hkv he
    exact hk (he ▸ List.mem_map_of_mem Prod.fst hkv)
  · intro a hobj hnull
    cases a
    case null => exact absurd rfl hnull
    case obj o => simp [isObjV] at hobj
    all_goals rfl
  · intro k v hm
    rw [mergeDefaults_eq_foldl, foldl_mergeStep_found defaults k v hnd hm []]
    simp [hasOwn, olookup]

/-- Witness: the amended C1 theorem at a concrete options object
`{cors: false, extra: 7}` and at the concrete non-object argument `3`. -/
theorem fortune_C1_witness :
    olookup (mergeDefaults [("cors", JVal.bool false), ("extra", JVal.num 7)]) "cors"
        = some (JVal.bool false)
    ∧ olookup (mergeDefaults [("cors", JVal.bool false), ("extra", JVal.num 7)]) "adapter"
        = some (JVal.str "nedb")
    ∧ olookup (mergeDefaults [("cors", JVal.bool false), ("extra", JVal.num 7)]) "extra"
        = some (JVal.num 7)
    ∧ initOptions (JVal.num 3) = Except.ok (mergeDefaults []) := by
  refine ⟨?_, ?_, ?_, ?_⟩
  · rw [fortune_C1_amended.1 _ "cors" (JVal.bool true) (by simp [defaults])]; rfl
  · rw [fortune_C1_amended.1 _ "adapter" (JVal.str "nedb") (by simp [defaults])]; rfl
  · rw [fortune_C1_amended.2.1 _ "extra" (by simp [defaults])]; rfl
  · exact fortune_C1_amended.2.2.1 (JVal.num 3) rfl (fun h => JVal.noConfusion h)

/-- Counterexample to claim C1 as stated: `null` is not an object (it is a
primitive), yet `_init(null)` does not produce the defaults — it throws a
`TypeError`, because `typeof null == "object"` lets `null` through the
ternary and the merging loop then calls `null.hasOwnProperty`. -/
theorem fortune_C1_counterexample :
    isObjV JVal.null = false
    ∧ initOptions JVal.null ≠ Except.ok (mergeDefaults [])
    ∧ initOptions JVal.null = Except.error "TypeError" :=
  ⟨rfl, fun h => Except.noConfusion h, rfl⟩

/-- Claim C3 evaluated at the failing input: when the `cors` option is the
boolean `false`, the condition `typeof options.cors == 'boolean' || ...` of
`_init` is nevertheless true, so the CORS middleware IS installed — contrary
to the claim (and to the option's own documentation, "boolean value
indicating whether or not to enable Cross Origin Resource Sharing"). -/
theorem fortune_C3_eval :
    corsInstalled (JVal.bool false) = true ∧ truthy (JVal.bool false) = false :=
  ⟨rfl, rfl⟩

/-- Whether `needle` matches at the head of `hay` (character-wise). -/
def headMatches : List Char → List Char → Bool
  | [], _ => true
  | _ :: _, [] => false
  | a :: as, b :: bs => a == b && headMatches as bs

/-- Whether `needle` occurs somewhere in `hay` (substring occurrence). -/
def occursInChars (needle : List Char) : List Char → Bool
  | [] => headMatches needle []
  | c :: rest => headMatches needle (c :: rest) || occursInChars needle rest

/-- `new RegExp('/' + collection).test(path)` for a collection name without
regex metacharacters: the pattern occurs as a substring of the path
(fortune.js:274,280). -/
def occursIn (needle hay : String) : Bool := occursInChars needle.data hay.data

/-- The HTTP verbs whose route tables `express()` keeps in `router.routes`. -/
inductive Verb : Type where
  | get
  | post
  | put
  | patch
  | delete
deriving DecidableEq

/-- The express route table: `router.routes[verb]` is the array of registered
routes for that verb; a route is identified here by its path. -/
structure RouteTable : Type where
  getR : List String
  postR : List String
  putR : List String
  patchR : List String
  deleteR : List String
deriving DecidableEq

/-- Apply `f` to the route list of one verb. -/
def updateVerb (t : RouteTable) (v : Verb) (f : List String → List String) : RouteTable :=
  match v with
  | .get => { t with getR := f t.getR }
  | .post => { t with postR := f t.postR }
  | .put => { t with putR := f t.putR }
  | .patch => { t with patchR := f t.patchR }
  | .delete => { t with deleteR := f t.deleteR }

/-- Route list of one verb. -/
def verbRoutes (t : RouteTable) (v : Verb) : List String :=
  match v with
  | .get => t.getR
  | .post => t.postR
  | .put => t.putR
  | .patch => t.patchR
  | .delete => t.deleteR

/-- One iteration of the loop body of `_removeRoutes` (fortune.js:279-283):
`paths.forEach(function(route, index) { if(<match>) paths.splice(index, 1); })`.
JavaScript's `forEach` reads the element at the visited index from the
*current* (mutated) array and skips indices past its current length, while
`splice(index, 1)` removes the element at that index in place. -/
def spliceStep (p : String → Bool) (arr : List String) (i : Nat) : List String :=
  match arr[i]? with
  | some r => if p r then arr.eraseIdx i else arr
  | none => arr

/-- The full `paths.forEach(...splice...)` loop of `_removeRoutes`: the index
ranges over `0 .. paths.length - 1` where the length is taken before the
first call, and the array is mutated in place as matches are spliced out. -/
def forEachSplice (p : String → Bool) (l : List String) : List String :=
  (List.range l.length).foldl (spliceStep p) l

/-- `Fortune.prototype._removeRoutes` (fortune.js:271-286): for each verb in
`methods`, splice out of `router.routes[verb]` every visited route whose path
is in `routes` (when given) or whose path matches `/<pluralized name>`
(when not). The body runs after `adapter.awaitConnection()` resolves; the
modelled result is the route table once it has run. `pluralize` stands for
the external inflection library `i`. -/
def removeRoutes (pluralize : String → String) (name : String) (methods : List Verb)
    (routes : Option (List String)) (t : RouteTable) : RouteTable :=
  let collection := pluralize name
  let pred : String → Bool := fun path =>
    match routes with
    | some rs => rs.contains path
    | none => occursIn ("/" ++ collection) path
  methods.foldl (fun t v => updateVerb t v (forEachSplice pred)) t

/-- `Fortune.prototype.readOnly` (fortune.js:296-300):
`this._removeRoutes(name, ['post', 'put', 'patch', 'delete'])`. -/
def readOnly (pluralize : String → String) (name : String) (t : RouteTable) : RouteTable :=
  removeRoutes pluralize name [.post, .put, .patch, .delete] none t

/-- `Fortune.prototype.noIndex` (fortune.js:308-313): removes the GET route
whose path is `options.namespace + '/' + inflect.pluralize(name)`. -/
def noIndex (pluralize : String → String) (ns name : String) (t : RouteTable) : RouteTable :=
  removeRoutes pluralize name [.get] (some [ns ++ "/" ++ pluralize name]) t

/-- A sample pluralizer standing in for the inflection library on regular
nouns. -/
def samplePluralize (s : String) : String := s ++ "s"

/-- Claim C2 evaluated at the failing input: for the resource `cat` and a
route table whose POST/PUT/PATCH/DELETE lists hold the two adjacent matching
routes `/cats` and `/cats/:id`, `readOnly` leaves `/cats/:id` registered
under each of those verbs (the `splice` inside `forEach` skips the element
that slides into the removed slot), even though its path matches the
pluralized resource name; the GET routes are unchanged. -/
theorem fortune_C2_eval :
    readOnly samplePluralize "cat"
        { getR := ["/cats", "/cats/:id"], postR := ["/cats", "/cats/:id"],
          putR := ["/cats", "/cats/:id"], patchR := ["/cats", "/cats/:id"],
          deleteR := ["/cats", "/cats/:id"] }
      = { getR := ["/cats", "/cats/:id"], postR := ["/cats/:id"],
          putR := ["/cats/:id"], patchR := ["/cats/:id"],
          deleteR := ["/cats/:id"] }
    ∧ occursIn ("/" ++ samplePluralize "cat") "/cats/:id" = true := by
  exact ⟨by decide, by decide⟩

lemma spliceStep_no_current_match (p : String → Bool) (arr : List String) (i : Nat)
    (h : ∀ x, arr[i]? = some x → p x = false) : spliceStep p arr i = arr := by
  unfold spliceStep
  cases hx : arr[i]? with
  | none => rfl
  | some r => simp [h r hx]

lemma foldl_spliceStep_of_nomatch (p : String → Bool) :
    ∀ (idxs : List Nat) (arr : List String),
      (∀ i ∈ idxs, ∀ x, arr[i]? = some x → p x = false) →
      idxs.foldl (spliceStep p) arr = arr := by
  intro idxs
  induction idxs with
  | nil => intro arr _; rfl
  | cons i rest ih =>
      intro arr h
      have hstep : spliceStep p arr i =
          arr := spliceStep_no_current_match p arr i (h i (List.mem_cons_self i rest))
      rw [List.foldl_cons, hstep]
      exact ih arr (fun j hj => h j (List.mem_cons_of_mem i hj))

lemma foldl_spliceStep_all_nomatch (p : String → Bool) (idxs : List Nat)
    (arr : List String) (h : ∀ x ∈ arr, p x = false) :
    idxs.foldl (spliceStep p) arr = arr :=
  foldl_spliceStep_of_nomatch p idxs arr
    (fun _ _ x hx => h x (List.getElem?_mem hx))

lemma getElem?_append_cons_length {α : Type} (l₁ l₂ : List α) (r : α) :
    (l₁ ++ r :: l₂)[l₁.length]? = some r := by
  induction l₁ with
  | nil => simp
  | cons a t ih => simpa using ih

lemma eraseIdx_append_cons_length {α : Type} (l₁ l₂ : List α) (r : α) :
    (l₁ ++ r :: l₂).eraseIdx l₁.length = l₁ ++ l₂ := by
  induction l₁ with
  | nil => rfl
  | cons a t ih => simpa [List.eraseIdx] using ih

/-- The `forEach`/`splice` loop, run on a list with exactly one matching
element, removes exactly that element. -/
lemma forEachSplice_single (p : String → Bool) (l₁ l₂ : List String) (r : String)
    (hr : p r = true) (h₁ : ∀ x ∈ l₁, p x = false) (h₂ : ∀ x ∈ l₂, p x = false) :
    forEachSplice p (l₁ ++ r :: l₂) = l₁ ++ l₂ := by
  unfold forEachSplice
  have hlen : (l₁ ++ r :: l₂).length = (l₁.length + 1) + l₂.length := by
    simp [List.length_append]
    omega
  rw [hlen, List.range_add, List.range_succ]
  rw [List.foldl_append, List.foldl_append]
  have h₁' : (List.range l₁.length).foldl (spliceStep p) (l₁ ++ r :: l₂)
      = l₁ ++ r :: l₂ := by
    refine foldl_spliceStep_of_nomatch p _ _ ?_
    intro i hi x hx
    have hilt : i < l₁.length := List.mem_range.mp hi
    rw [List.getElem?_append_left hilt] at hx
    exact h₁ x (List.getElem?_mem hx)
  rw [h₁']
  have hmid : [l₁.length].foldl (spliceStep p) (l₁ ++ r :: l₂) = l₁ ++ l₂ := by
    rw [List.foldl_cons]
    unfold spliceStep
    rw [getElem?_append_cons_length, List.foldl_nil]
    simp [hr, eraseIdx_append_cons_length]
  rw [hmid]
  refine foldl_spliceStep_all_nomatch p _ _ ?_
  intro x hx
  rcases List.mem_append.mp hx with h | h
  · exact h₁ x h
  · exact h₂ x h

/-- Claim C7: `noIndex(name)` removes exactly the collection index GET route,
whose path is the configured namespace followed by `/` and the pluralized
resource name; every other GET route (in particular item routes, whose paths
differ from the index path) and all routes of the other HTTP verbs are
unchanged. -/
theorem fortune_C7_noIndex (plz : String → String) (ns name : String)
    (g₁ g₂ ps pu pa de : List String)
    (h₁ : ∀ x ∈ g₁, x ≠ ns ++ "/" ++ plz name)
    (h₂ : ∀ x ∈ g₂, x ≠ ns ++ "/" ++ plz name) :
    noIndex plz ns name
        { getR := g₁ ++ (ns ++ "/" ++ plz name) :: g₂, postR := ps, putR := pu,
          patchR := pa, deleteR := de }
      = { getR := g₁ ++ g₂, postR := ps, putR := pu, patchR := pa, deleteR := de } := by
  unfold noIndex removeRoutes
  simp only [List.foldl_cons, List.foldl_nil, updateVerb]
  have hsplice : forEachSplice
      (fun path => [ns ++ "/" ++ plz name].contains path)
      (g₁ ++ (ns ++ "/" ++ plz name) :: g₂) = g₁ ++ g₂ := by
    refine forEachSplice_single _ g₁ g₂ _ ?_ ?_ ?_
    · simp
    · intro x hx
      simpa using h₁ x hx
    · intro x hx
      simpa using h₂ x hx
  simpa using hsplice

/-- Witness: claim C7's theorem at a concrete table — namespace `/api`,
resource `cat`, a GET item route and the GET index route, plus a POST
route; only the index route disappears. -/
theorem fortune_C7_witness :
    noIndex samplePluralize "/api" "cat"
        { getR := ["/api/cats/:id", "/api/cats"], postR := ["/api/cats"],
          putR := [], patchR := [], deleteR := [] }
      = { getR := ["/api/cats/:id"], postR := ["/api/cats"],
          putR := [], patchR := [], deleteR := [] } := by
  have h := fortune_C7_noIndex samplePluralize "/api" "cat"
    ["/api/cats/:id"] [] ["/api/cats"] [] [] []
    (by intro x hx; simp at hx; subst hx; decide)
    (by intro x hx; simp at hx)
  simpa using h

/-- A schema object: field name to field descriptor (a `JVal`). -/
def Schema : Type := List (String × JVal)

/-- `console.warn('Reserved key "' + reservedKey + '" is not allowed.')`
(fortune.js:150). -/
def reservedWarn (k : String) : String :=
  "Reserved key \"" ++ k ++ "\" is not allowed."

/-- `console.warn('Warning: resource "' + name + '" was already defined.')`
(fortune.js:117). -/
def alreadyWarn (name : String) : String :=
  "Warning: resource \"" ++ name ++ "\" was already defined."

/-- `console.trace('There was an error loading the "' + name + '" resource. '
+ error)` (fortune.js:131). -/
def traceMsg (name e : String) : String :=
  "There was an error loading the \"" ++ name ++ "\" resource. " ++ e

/-- `Fortune.prototype._scrubSchema` (fortune.js:146-154): for each reserved
key `id`, `href`, `links` in order, if the schema has it as an own property,
delete it and warn. Returns the scrubbed schema together with the warnings
printed. -/
def scrubSchema (schema : Schema) : Schema × List String :=
  ["id", "href", "links"].foldl
    (fun acc k =>
      if hasOwn acc.1 k then (delKey acc.1 k, acc.2 ++ [reservedWarn k]) else acc)
    (schema, [])

/-- The observable state of a Fortune instance that `resource` and its
callees touch: `_resource` (the last defined resource name), the `_schema`
registry, the adapter's registered model names, the express route table, and
the console output so far. -/
structure FState : Type where
  res : String
  schemas : List (String × Schema)
  models : List String
  routes : RouteTable
  log : List String

/-- `Fortune.prototype.resource` (fortune.js:111-137). Parameters model the
collaborators: `adpSchema` is `adapter.schema` (which may throw), `mkRoutes`
is the combined `adapter.model(name, schema)` registration plus the `_route`
setup (which may also throw), and `conn` is the outcome of
`adapter.awaitConnection()` — on rejection the handler rethrows the error.
The body: record `_resource := name`; return unchanged if the schema
argument is not an object; warn and return if the adapter already has a
model for `name`; otherwise, once connected, scrub the schema, store a copy
in `_schema[name]`, and inside `try { ... } catch` run the adapter schema
step, the model registration and the route setup, logging a trace instead of
propagating if any of them throws. -/
def resource (adpSchema : String → Schema → Except String Schema)
    (mkRoutes : String → Schema → RouteTable → Except String RouteTable)
    (conn : Except String Unit)
    (st : FState) (name : String) (schemaArg : JVal) : Except String FState :=
  let st₀ : FState := { st with res := name }
  match schemaArg with
  | JVal.obj schema =>
    if st₀.models.contains name then
      Except.ok { st₀ with log := st₀.log ++ [alreadyWarn name] }
    else
      match conn with
      | Except.error e => Except.error e
      | Except.ok _ =>
        let scrubbed := scrubSchema schema
        let st₁ : FState := { st₀ with
          schemas := setKey st₀.schemas name scrubbed.1,
          log := st₀.log ++ scrubbed.2 }
        match adpSchema name scrubbed.1 with
        | Except.error e => Except.ok { st₁ with log := st₁.log ++ [traceMsg name e] }
        | Except.ok schema₂ =>
          let st₂ : FState := { st₁ with models := st₁.models ++ [name] }
          match mkRoutes name schema₂ st₂.routes with
          | Except.error e => Except.ok { st₂ with log := st₂.log ++ [traceMsg name e] }
          | Except.ok rts => Except.ok { st₂ with routes := rts }
  | _ => Except.ok st₀

lemma hasOwn_eq_false_iff {α : Type} (o : List (String × α)) (k : String) :
    hasOwn o k = false ↔ olookup o k = none := by
  cases hl : olookup o k <;> simp [hasOwn, hl]

lemma olookup_delKey_self {α : Type} (o : List (String × α)) (k : String) :
    olookup (delKey o k) k = none := by
  induction o with
  | nil => rfl
  | cons p t ih =>
      by_cases hp : p.1 == k
      · simpa [delKey, List.filter_cons, hp] using ih
      · simpa [delKey, List.filter_cons, hp, olookup] using ih

lemma olookup_delKey_ne {α : Type} (o : List (String × α)) (k k' : String)
    (h : k' ≠ k) : olookup (delKey o k) k' = olookup o k' := by
  induction o with
  | nil => rfl
  | cons p t ih =>
      by_cases hp : p.1 == k
      · have hpk : p.1 = k := by simpa using hp
        have hnq : ¬ (p.1 == k') := by
          simp only [hpk, beq_iff_eq]
          exact fun hh => h hh.symm
        simpa [delKey, List.filter_cons, hp, olookup, hnq] using ih
      · by_cases hq : p.1 == k'
        · simp [delKey, List.filter_cons, hp, olookup, hq]
        · simpa [delKey, List.filter_cons, hp, olookup, hq] using ih

/-- Single step of the reserved-key scrubbing loop of `_scrubSchema`. -/
def scrubStep (acc : Schema × List String) (k : String) : Schema × List String :=
  if hasOwn acc.1 k then (delKey acc.1 k, acc.2 ++ [reservedWarn k]) else acc

lemma scrubSchema_eq_foldl (schema : Schema) :
    scrubSchema schema = ["id", "href", "links"].foldl scrubStep (schema, []) := rfl

lemma foldl_scrubStep_none (ks : List String) (k : String) :
    ∀ acc : Schema × List String, olookup acc.1 k = none →
      olookup (ks.foldl scrubStep acc).1 k = none := by
  induction ks with
  | nil => intro acc h; exact h
  | cons k₀ rest ih =>
      intro acc h
      rw [List.foldl_cons]
      refine ih _ ?_
      cases hc : hasOwn acc.1 k₀ with
      | true =>
          by_cases he : k = k₀
          · subst he; simp [scrubStep, hc, olookup_delKey_self]
          · simp [scrubStep, hc, olookup_delKey_ne acc.1 k₀ k he, h]
      | false => simp [scrubStep, hc, h]

lemma foldl_scrubStep_mem (ks : List String) (k : String) (hk : k ∈ ks) :
    ∀ acc : Schema × List String, olookup (ks.foldl scrubStep acc).1 k = none := by
  induction ks with
  | nil => cases hk
  | cons k₀ rest ih =>
      intro acc
      rw [List.foldl_cons]
      by_cases he : k ∈ rest
      · exact ih he _
      · have hk₀ : k = k₀ := by
          rcases List.mem_cons.mp hk with h | h
          · exact h
          · exact absurd h he
        subst hk₀
        refine foldl_scrubStep_none rest k _ ?_
        cases hc : hasOwn acc.1 k with
        | true => simp [scrubStep, hc, olookup_delKey_self]
        | false => simp [scrubStep, hc, (hasOwn_eq_false_iff acc.1 k).mp hc]

lemma foldl_scrubStep_notmem (ks : List String) (k : String) (hk : k ∉ ks) :
    ∀ acc : Schema × List String,
      olookup (ks.foldl scrubStep acc).1 k = olookup acc.1 k := by
  induction ks with
  | nil => intro acc; rfl
  | cons k₀ rest ih =>
      intro acc
      have hk₀ : k ≠ k₀ := fun he => hk (by rw [he]; exact List.mem_cons_self k₀ rest)
      have hrest : k ∉ rest := fun hr => hk (List.mem_cons_of_mem k₀ hr)
      rw [List.foldl_cons, ih hrest]
      cases hc : hasOwn acc.1 k₀ with
      | true => simp [scrubStep, hc, olookup_delKey_ne acc.1 k₀ k hk₀]
      | false => simp [scrubStep, hc]

/-- Claim C4: for every schema object passed to `resource()` (for a fresh
name, so that registration proceeds), the scrubbed schema contains none of
the reserved field names `id`, `href`, `links`; every other field of the
input schema is present in it unchanged; and whatever the adapter and route
setup do, the `_schema` registry entry stored under the resource name is
(a copy of) that scrubbed schema — the same object that `resource` hands to
`adapter.schema`. -/
theorem fortune_C4_scrub (adp : String → Schema → Except String Schema)
    (mkR : String → Schema → RouteTable → Except String RouteTable)
    (st : FState) (name : String) (schema : Schema)
    (hfresh : st.models.contains name = false) :
    (∀ k ∈ ["id", "href", "links"], olookup (scrubSchema schema).1 k = none)
    ∧ (∀ k, k ∉ ["id", "href", "links"] →
        olookup (scrubSchema schema).1 k = olookup schema k)
    ∧ (∀ st', resource adp mkR (Except.ok ()) st name (JVal.obj schema) = Except.ok st' →
        olookup st'.schemas name = some (scrubSchema schema).1) := by
  refine ⟨?_, ?_, ?_⟩
  · intro k hk
    rw [scrubSchema_eq_foldl]
    exact foldl_scrubStep_mem ["id", "href", "links"] k hk (schema, [])
  · intro k hk
    rw [scrubSchema_eq_foldl]
    exact foldl_scrubStep_notmem ["id", "href", "links"] k hk (schema, [])
  · intro st' h
    have hnmem : name ∉ st.models := by simpa using hfresh
    rcases hadp : adp name (scrubSchema schema).1 with e | s₂
    · simp [resource, hnmem, hadp] at h
      rcases h with rfl
      simp [olookup_setKey_self]
    · rcases hmkr : mkR name s₂ st.routes with e | rts
      · simp [resource, hnmem, hadp, hmkr] at h
        rcases h with rfl
        simp [olookup_setKey_self]
      · simp [resource, hnmem, hadp, hmkr] at h
        rcases h with rfl
        simp [olookup_setKey_self]

/-- Claim C5: when the adapter already has a model for `name`, `resource`
emits the duplicate warning and returns the instance; the `_schema` registry,
the adapter's models and the routes are untouched (only `_resource` and the
console log change). -/
theorem fortune_C5_duplicate (adp : String → Schema → Except String Schema)
    (mkR : String → Schema → RouteTable → Except String RouteTable)
    (conn : Except String Unit) (st : FState) (name : String) (schema : Schema)
    (hdup : st.models.contains name = true) :
    resource adp mkR conn st name (JVal.obj schema)
      = Except.ok { st with res := name, log := st.log ++ [alreadyWarn name] } := by
  have hmem : name ∈ st.models := by simpa using hdup
  simp [resource, hmem]

/-- Witness: claim C5's theorem at a concrete instance in which `cat` is
already defined. -/
theorem fortune_C5_witness :
    resource (fun _ s => Except.ok s) (fun _ _ t => Except.ok t) (Except.ok ())
        (FState.mk "" [("cat", [("title", JVal.str "String")])] ["cat"]
          (RouteTable.mk ["/cats"] [] [] [] []) [])
        "cat" (JVal.obj [("color", JVal.str "String")])
      = Except.ok (FState.mk "cat" [("cat", [("title", JVal.str "String")])] ["cat"]
          (RouteTable.mk ["/cats"] [] [] [] []) [alreadyWarn "cat"]) :=
  fortune_C5_duplicate _ _ _ _ _ _ (by decide)

/-- Claim C6: with a fresh name and an object schema, (a) a failed adapter
connection is rethrown by the rejection handler, so `resource` propagates the
error; (b) if `adapter.schema` throws, the error is caught: the call still
succeeds, a trace of the error is logged, and no model and no routes are
registered; (c) if the model/route setup throws after `adapter.schema`
succeeded, the error is likewise caught and logged and the routes are left
unchanged. -/
theorem fortune_C6_errors (adp : String → Schema → Except String Schema)
    (mkR : String → Schema → RouteTable → Except String RouteTable)
    (st : FState) (name : String) (schema : Schema) (e : String)
    (hfresh : st.models.contains name = false) :
    (resource adp mkR (Except.error e) st name (JVal.obj schema) = Except.error e)
    ∧ (resource (fun _ _ => Except.error e) mkR (Except.ok ()) st name (JVal.obj schema)
        = Except.ok { st with
            res := name,
            schemas := setKey st.schemas name (scrubSchema schema).1,
            log := (st.log ++ (scrubSchema schema).2) ++ [traceMsg name e] })
    ∧ (∀ schema₂, adp name (scrubSchema schema).1 = Except.ok schema₂ →
        resource adp (fun _ _ _ => Except.error e) (Except.ok ()) st name (JVal.obj schema)
          = Except.ok { st with
              res := name,
              schemas := setKey st.schemas name (scrubSchema schema).1,
              models := st.models ++ [name],
              log := (st.log ++ (scrubSchema schema).2) ++ [traceMsg name e] }) := by
  have hnmem : name ∉ st.models := by simpa using hfresh
  refine ⟨?_, ?_, ?_⟩
  · simp [resource, hnmem]
  · simp [resource, hnmem]
  · intro schema₂ hadp
    simp [resource, hnmem, hadp]

/-- Witness: claim C6's theorem at concrete instances — a failed connection
is propagated; a throwing `adapter.schema` and a throwing route setup are
each caught and logged. -/
theorem fortune_C6_witness :
    (resource (fun _ s => Except.ok s) (fun _ _ t => Except.ok t)
        (Except.error "connect failed")
        (FState.mk "" [] [] (RouteTable.mk [] [] [] [] []) []) "cat"
        (JVal.obj [("title", JVal.str "String")])
      = Except.error "connect failed")
    ∧ (resource (fun _ _ => Except.error "schema failed") (fun _ _ t => Except.ok t)
        (Except.ok ())
        (FState.mk "" [] [] (RouteTable.mk [] [] [] [] []) []) "cat"
        (JVal.obj [("title", JVal.str "String")])
      = Except.ok (FState.mk "cat" [("cat", [("title", JVal.str "String")])] []
          (RouteTable.mk [] [] [] [] []) [traceMsg "cat" "schema failed"]))
    ∧ (resource (fun _ s => Except.ok s) (fun _ _ _ => Except.error "route failed")
        (Except.ok ())
        (FState.mk "" [] [] (RouteTable.mk [] [] [] [] []) []) "cat"
        (JVal.obj [("title", JVal.str "String")])
      = Except.ok (FState.mk "cat" [("cat", [("title", JVal.str "String")])] ["cat"]
          (RouteTable.mk [] [] [] [] []) [traceMsg "cat" "route failed"])) := by
  refine ⟨?_, ?_, ?_⟩
  · exact (fortune_C6_errors (fun _ s => Except.ok s) (fun _ _ t => Except.ok t)
      (FState.mk "" [] [] (RouteTable.mk [] [] [] [] []) []) "cat"
      [("title", JVal.str "String")] "connect failed" (by decide)).1
  · exact (fortune_C6_errors (fun _ s => Except.ok s) (fun _ _ t => Except.ok t)
      (FState.mk "" [] [] (RouteTable.mk [] [] [] [] []) []) "cat"
      [("title", JVal.str "String")] "schema failed" (by decide)).2.1
  · exact (fortune_C6_errors (fun _ s => Except.ok s) (fun _ _ _ => Except.error "route failed")
      (FState.mk "" [] [] (RouteTable.mk [] [] [] [] []) []) "cat"
      [("title", JVal.str "String")] "route failed" (by decide)).2.2
      [("title", JVal.str "String")] rfl

/-- Witness: claim C4's theorem at a concrete schema `{id, title}` for the
fresh resource `cat`: `id` is scrubbed, `title` survives unchanged, and the
registry entry under `cat` is the scrubbed schema. -/
theorem fortune_C4_witness :
    olookup (scrubSchema [("id", JVal.str "String"), ("title", JVal.str "String")]).1 "id"
        = none
    ∧ olookup (scrubSchema [("id", JVal.str "String"), ("title", JVal.str "String")]).1 "title"
        = olookup [("id", JVal.str "String"), ("title", JVal.str "String")] "title"
    ∧ olookup (FState.mk "cat" [("cat", [("title", JVal.str "String")])] ["cat"]
          (RouteTable.mk [] [] [] [] []) [reservedWarn "id"]).schemas "cat"
        = some (scrubSchema [("id", JVal.str "String"), ("title", JVal.str "String")]).1 := by
  have h := fortune_C4_scrub (fun _ s => Except.ok s) (fun _ _ t => Except.ok t)
    (FState.mk "" [] [] (RouteTable.mk [] [] [] [] []) []) "cat"
    [("id", JVal.str "String"), ("title", JVal.str "String")] (by decide)
  exact ⟨h.1 "id" (by decide), h.2.1 "title" (by decide), h.2.2 _ rfl⟩

/-- The argument in the `name` position of `_addTransform`: either a resource
name string or a hook function (fortune.js:167-170 shifts the arguments in
the latter case). Hooks are abstract values of type `H`. -/
inductive NameArg (H : Type) : Type where
  | str (s : String)
  | fn (f : H)

/-- The transform-related state of a Fortune instance: `_resource` (the last
defined resource name, fortune.js:359) and the `_before`/`_after` registries
(fortune.js:337,344), each mapping a resource name to its hook. -/
structure TState (H : Type) : Type where
  res : String
  bef : List (String × H)
  aft : List (String × H)

/-- Accumulator for JavaScript `String.prototype.split(' ')`. -/
def splitSpAux : List Char → List Char → List String
  | [], acc => [String.mk acc.reverse]
  | c :: rest, acc =>
      if c == ' ' then String.mk acc.reverse :: splitSpAux rest []
      else splitSpAux rest (c :: acc)

/-- JavaScript `name.split(' ')` (fortune.js:172): split on every single
space, keeping empty pieces; `''.split(' ')` is `['']`. -/
def jsSplitSpace (s : String) : List String := splitSpAux s.data []

/-- The `stage` argument of `_addTransform`: the name of the registry to
write, `'_before'` or `'_after'`. -/
inductive Stage : Type where
  | beforeStage
  | afterStage

/-- `this[stage]` as an l-value: replace the chosen registry. -/
def writeStage {H : Type} (st : TState H) (stage : Stage) (m : List (String × H)) :
    TState H :=
  match stage with
  | .beforeStage => { st with bef := m }
  | .afterStage => { st with aft := m }

/-- `this[stage]` as an r-value: the chosen registry. -/
def readStage {H : Type} (st : TState H) (stage : Stage) : List (String × H) :=
  match stage with
  | .beforeStage => st.bef
  | .afterStage => st.aft

/-- `Fortune.prototype._addTransform` (fortune.js:164-176): if `name` is a
function, shift it into `fn` and use `this._resource` as the name; then, if
`fn` is a function, assign `this[stage][key] = fn` for every space-delimited
token `key` of the name. -/
def addTransform {H : Type} (st : TState H) (nameArg : NameArg H) (fnArg : Option H)
    (stage : Stage) : TState H :=
  let name : String :=
    match nameArg with
    | .str s => s
    | .fn _ => st.res
  let fn : Option H :=
    match nameArg with
    | .str _ => fnArg
    | .fn g => some g
  match fn with
  | some g =>
      writeStage st stage
        ((jsSplitSpace name).foldl (fun m key => setKey m key g) (readStage st stage))
  | none => st

/-- `Fortune.prototype.before` (fortune.js:194-197):
`this._addTransform(name, fn, '_before')`. -/
def before {H : Type} (st : TState H) (nameArg : NameArg H) (fnArg : Option H) :
    TState H :=
  addTransform st nameArg fnArg Stage.beforeStage

/-- `Fortune.prototype.after` (fortune.js:214-217):
`this._addTransform(name, fn, '_after')`. -/
def after {H : Type} (st : TState H) (nameArg : NameArg H) (fnArg : Option H) :
    TState H :=
  addTransform st nameArg fnArg Stage.afterStage

/-- `Fortune.prototype.transform` called with three arguments
(fortune.js:233-234): `this.before(name, before); this.after(name, after)`. -/
def transform {H : Type} (st : TState H) (nameArg : NameArg H) (b a : Option H) :
    TState H :=
  after (before st nameArg b) nameArg a

/-- `Fortune.prototype.transform` called with fewer than three arguments
(fortune.js:228-232): `after = before; before = name; name = this._resource`,
then the two registrations under the resolved name string. -/
def transform2 {H : Type} (st : TState H) (b a : Option H) : TState H :=
  after (before st (NameArg.str st.res) b) (NameArg.str st.res) a

/-- Claim C9: `transform(name, beforeFn, afterFn)` equals `before(name,
beforeFn)` followed by `after(name, afterFn)` (for any name argument,
string or function); and `transform(beforeFn, afterFn)` with fewer than
three arguments equals `before(beforeFn)` followed by `after(afterFn)`,
both resolving to the last defined resource name. -/
theorem fortune_C9_transform (H : Type) :
    (∀ (st : TState H) (nameArg : NameArg H) (b a : Option H),
      transform st nameArg b a = after (before st nameArg b) nameArg a)
    ∧ (∀ (st : TState H) (f g : H),
      transform2 st (some f) (some g)
        = after (before st (NameArg.fn f) none) (NameArg.fn g) none) :=
  ⟨fun _ _ _ _ => rfl, fun _ _ _ => rfl⟩

lemma olookup_foldl_setKey {α : Type} (g : α) :
    ∀ (toks : List String) (m : List (String × α)) (k : String),
      (k ∈ toks ∨ olookup m k = some g) →
      olookup (toks.foldl (fun m key => setKey m key g) m) k = some g := by
  intro toks
  induction toks with
  | nil =>
      intro m k h
      rcases h with h | h
      · cases h
      · exact h
  | cons t rest ih =>
      intro m k h
      rw [List.foldl_cons]
      rcases h with h | h
      · rcases List.mem_cons.mp h with rfl | hr
        · exact ih _ k (Or.inr (olookup_setKey_self m k g))
        · exact ih _ k (Or.inl hr)
      · refine ih _ k (Or.inr ?_)
        by_cases he : k = t
        · subst he; exact olookup_setKey_self m k g
        · rw [olookup_setKey_ne m t k g he]; exact h

lemma readStage_writeStage {H : Type} (st : TState H) (stage : Stage)
    (m : List (String × H)) : readStage (writeStage st stage m) stage = m := by
  cases stage <;> rfl

/-- Claim C10: a hook passed to `_addTransform` with a space-separated name
string is registered under each space-delimited token; a later registration
for the same name and stage overwrites the earlier one (each name holds at
most one hook per stage — the registry is keyed by name); and when the name
argument is a function, the hook is registered under the last defined
resource name (`this._resource`). -/
theorem fortune_C10_addTransform (H : Type) :
    (∀ (st : TState H) (s : String) (f : H) (stage : Stage),
      ∀ k ∈ jsSplitSpace s,
        olookup (readStage (addTransform st (NameArg.str s) (some f) stage) stage) k
          = some f)
    ∧ (∀ (st : TState H) (s : String) (f g : H) (stage : Stage),
      ∀ k ∈ jsSplitSpace s,
        olookup (readStage (addTransform (addTransform st (NameArg.str s) (some f) stage)
            (NameArg.str s) (some g) stage) stage) k
          = some g)
    ∧ (∀ (st : TState H) (f : H) (fnArg : Option H) (stage : Stage),
      ∀ k ∈ jsSplitSpace st.res,
        olookup (readStage (addTransform st (NameArg.fn f) fnArg stage) stage) k
          = some f) := by
  have key : ∀ (st : TState H) (s : String) (f : H) (stage : Stage),
      ∀ k ∈ jsSplitSpace s,
        olookup (readStage (addTransform st (NameArg.str s) (some f) stage) stage) k
          = some f := by
    intro st s f stage k hk
    show olookup (readStage (writeStage st stage _) stage) k = some f
    rw [readStage_writeStage]
    exact olookup_foldl_setKey f (jsSplitSpace s) (readStage st stage) k (Or.inl hk)
  refine ⟨key, ?_, ?_⟩
  · intro st s f g stage k hk
    exact key _ s g stage k hk
  · intro st f fnArg stage k hk
    show olookup (readStage (writeStage st stage _) stage) k = some f
    rw [readStage_writeStage]
    exact olookup_foldl_setKey f (jsSplitSpace st.res) (readStage st stage) k (Or.inl hk)

/-- Witness: claim C10's theorem at concrete registrations (hooks are
numbered labels): `'cat dog'` registers under `dog`; re-registering `cat`
overwrites hook `1` with hook `2`; a function in the name position registers
under the last defined resource `dog`. -/
theorem fortune_C10_witness :
    olookup (readStage (addTransform (TState.mk "dog" [] []) (NameArg.str "cat dog")
        (some 1) Stage.beforeStage) Stage.beforeStage) "dog" = some 1
    ∧ olookup (readStage (addTransform (addTransform (TState.mk "dog" [] [])
        (NameArg.str "cat") (some 1) Stage.afterStage)
        (NameArg.str "cat") (some 2) Stage.afterStage) Stage.afterStage) "cat" = some 2
    ∧ olookup (readStage (addTransform (TState.mk "dog" [("x", 9)] []) (NameArg.fn 3)
        none Stage.beforeStage) Stage.beforeStage) "dog" = some 3 :=
  ⟨(fortune_C10_addTransform ℕ).1 _ "cat dog" 1 _ "dog" (by decide),
   (fortune_C10_addTransform ℕ).2.1 _ "cat" 1 2 _ "cat" (by decide),
   (fortune_C10_addTransform ℕ).2.2 _ 3 none _ "dog" (by decide)⟩

/-- The observable events of handling one resource-persisting request. -/
inductive Ev : Type where
  | beforeHook
  | persistOp
  | readOp
  | afterHook
  | respondOp
deriving DecidableEq

/-- Modelled from the spec: the per-request pipeline of the route module
(`lib/route.js`, required at fortune.js:3 and installed as
`Fortune.prototype._route`, is not among the sources; only `lib/fortune.js`
is). The spec says before/after transform functions are "invoked around
persistence operations", that "before-hooks run prior to persistence" and
"after-hooks run prior to response", and that the after hook transforms what
was "read from the database" before it is serialized. Hence a request that
persists a resource named `name` runs: the registered before hook for `name`
(if any) from the `_before` registry, then the persistence operation, then
the database read, then the registered after hook for `name` (if any) from
the `_after` registry, then the response. -/
def handleWrite {H : Type} (bef aft : List (String × H)) (name : String) : List Ev :=
  (match olookup bef name with
    | some _ => [Ev.beforeHook]
    | none => [])
  ++ [Ev.persistOp, Ev.readOp]
  ++ (match olookup aft name with
    | some _ => [Ev.afterHook]
    | none => [])
  ++ [Ev.respondOp]

/-- Claim C8: for a request persisting a resource whose before and after
hooks are registered, the pipeline runs the before hook strictly before the
persistence operation, and the after hook strictly after the database read
and strictly before the response is sent. -/
theorem fortune_C8_hookOrder (H : Type) (st : TState H) (name : String) (f g : H)
    (hb : olookup st.bef name = some f) (ha : olookup st.aft name = some g) :
    handleWrite st.bef st.aft name
      = [Ev.beforeHook, Ev.persistOp, Ev.readOp, Ev.afterHook, Ev.respondOp]
    ∧ (handleWrite st.bef st.aft name).indexOf Ev.beforeHook
        < (handleWrite st.bef st.aft name).indexOf Ev.persistOp
    ∧ (handleWrite st.bef st.aft name).indexOf Ev.readOp
        < (handleWrite st.bef st.aft name).indexOf Ev.afterHook
    ∧ (handleWrite st.bef st.aft name).indexOf Ev.afterHook
        < (handleWrite st.bef st.aft name).indexOf Ev.respondOp := by
  have htr : handleWrite st.bef st.aft name
      = [Ev.beforeHook, Ev.persistOp, Ev.readOp, Ev.afterHook, Ev.respondOp] := by
    simp [handleWrite, hb, ha]
  refine ⟨htr, ?_, ?_, ?_⟩ <;> rw [htr] <;> decide

/-- Witness: claim C8's theorem on registries built with the actual
`before`/`after` registration functions of fortune.js for the resource
`cat`. -/
theorem fortune_C8_witness :
    handleWrite
      (after (before (TState.mk "cat" [] []) (NameArg.str "cat") (some 1))
        (NameArg.str "cat") (some 2)).bef
      (after (before (TState.mk "cat" [] []) (NameArg.str "cat") (some 1))
        (NameArg.str "cat") (some 2)).aft
      "cat"
      = [Ev.beforeHook, Ev.persistOp, Ev.readOp, Ev.afterHook, Ev.respondOp] :=
  (fortune_C8_hookOrder ℕ
    (after (before (TState.mk "cat" [] []) (NameArg.str "cat") (some 1))
      (NameArg.str "cat") (some 2))
    "cat" 1 2 (by decide) (by decide)).1

end Fortune
